import Mathlib

/-!
Verification of the enrichment pipeline in `function_app.py` (prospectinator-backend).

The Python source is shallowly embedded below:
* a spreadsheet cell is either a missing value (pandas `NaN`) or a string;
* machine floats arising from `float(...)` parses are modelled by exact
  rationals plus explicit `nan`/`inf` markers (all numeric values exercised by
  the claims are exactly representable in both models);
* clock times handed to the token-bucket rate limiter are rationals;
* the effectful pipeline `process_xlsx_v2` is modelled as a pure function that
  returns the ordered log of blob writes it performs (or the configuration
  error it raises before writing anything).
-/

/-- A pandas cell as seen by `process_xlsx_v2`: either a missing value
(`NaN`, what `pd.isna` detects) or a string. -/
inductive Cell where
  | nan : Cell
  | str (s : String) : Cell
deriving DecidableEq, Repr

/-- `pd.isna` on a cell: true exactly on the missing-value marker. -/
def Cell.isna : Cell → Bool
  | .nan => true
  | .str _ => false

/-- One input row projected onto the three columns the pipeline reads:
the resolved company column, person column and fallback phone column. -/
structure Record where
  company : Cell
  person : Cell
  fallback : Cell
deriving DecidableEq, Repr

/-- The row-selection loop of `process_xlsx_v2` (function_app.py lines
223-232).  Mirrors the Python exactly: a row whose company cell and person
cell are both `NaN` increments the consecutive-empty counter (and is *not*
appended); once the counter reaches 3 the scan breaks; any other row resets
the counter and is appended together with its index. -/
def selectGo (idx empty : Nat) : List Record → List (Nat × Record)
  | [] => []
  | r :: rest =>
    if r.company.isna && r.person.isna then
      if empty + 1 ≥ 3 then []
      else selectGo (idx + 1) (empty + 1) rest
    else (idx, r) :: selectGo (idx + 1) 0 rest

/-- `rows` as computed by `process_xlsx_v2`: the working set of
(index, record) pairs produced by the early-stop scan. -/
def selectRows (records : List Record) : List (Nat × Record) :=
  selectGo 0 0 records

/-- The six-row scenario of claim C1, reading the `("","")` rows as blank
spreadsheet rows, i.e. `NaN` cells (the reading under which the early stop
triggers at all). -/
def c1Records : List Record :=
  [ ⟨.str "A", .str "P1", .str ""⟩
  , ⟨.str "B", .str "P2", .str ""⟩
  , ⟨.nan, .nan, .nan⟩
  , ⟨.nan, .nan, .nan⟩
  , ⟨.nan, .nan, .nan⟩
  , ⟨.str "C", .str "P3", .str ""⟩ ]

/-- The same scenario with the `("","")` rows read literally as empty-string
cells, under which `pd.isna` is false on every row. -/
def c1RecordsLiteral : List Record :=
  [ ⟨.str "A", .str "P1", .str ""⟩
  , ⟨.str "B", .str "P2", .str ""⟩
  , ⟨.str "", .str "", .str ""⟩
  , ⟨.str "", .str "", .str ""⟩
  , ⟨.str "", .str "", .str ""⟩
  , ⟨.str "C", .str "P3", .str ""⟩ ]

/-- C1 (counterexample): the claimed working set of size 5 is wrong under
either reading of the scenario's empty rows.  With blank (`NaN`) rows the
scan does stop at the third empty row and excludes `("C","P3")`, but the
empty rows are never appended, so the working set has 2 records, not 5.
With literal empty-string rows no row counts as empty, so all 6 records are
selected. -/
theorem C1_counterexample :
    (selectRows c1Records).length = 2 ∧ (selectRows c1Records).length ≠ 5 ∧
    (selectRows c1RecordsLiteral).length = 6 ∧ (selectRows c1RecordsLiteral).length ≠ 5 := by
  decide

/-- C1 (amended): on the scenario with blank (`NaN`) empty rows, the scan
stops after the third consecutive empty row and excludes `("C","P3")`, but
the empty rows before the stop are *not* appended to the working set: the
working set consists of exactly the 2 non-empty leading records, indices
0 and 1. -/
theorem C1_amended :
    selectRows c1Records =
      [ (0, ⟨.str "A", .str "P1", .str ""⟩)
      , (1, ⟨.str "B", .str "P2", .str ""⟩) ] := by
  decide

/-- C9: a record counts toward the consecutive-empty early-stop counter
exactly when both its company cell and its person cell are `NaN`; a record
whose company and person fields hold strings (in particular empty strings
`""`) is treated as non-empty, resets the counter, and is appended to the
working set; a both-`NaN` record merely steps the counter and is not
appended. -/
theorem C9_empty_row_trigger :
    (∀ (r : Record), (r.company.isna && r.person.isna) = true ↔
        r.company = Cell.nan ∧ r.person = Cell.nan)
  ∧ (∀ (s t : String) (fb : Cell) (rest : List Record) (idx empty : Nat),
      selectGo idx empty (⟨.str s, .str t, fb⟩ :: rest)
        = (idx, ⟨.str s, .str t, fb⟩) :: selectGo (idx + 1) 0 rest)
  ∧ (∀ (fb : Cell) (rest : List Record) (idx empty : Nat),
      selectGo idx empty (⟨.nan, .nan, fb⟩ :: rest)
        = if empty + 1 ≥ 3 then [] else selectGo (idx + 1) (empty + 1) rest) := by
  refine ⟨?_, ?_, ?_⟩
  · intro r
    cases hc : r.company <;> cases hp : r.person <;> simp [Cell.isna, hc, hp]
  · intro s t fb rest idx empty
    simp [selectGo, Cell.isna]
  · intro fb rest idx empty
    simp [selectGo, Cell.isna]

/-- Whitespace stripping on a character list: Python `str.strip()` with no
argument (the claims only exercise ASCII whitespace). -/
def listStrip (l : List Char) : List Char :=
  ((l.dropWhile Char.isWhitespace).reverse.dropWhile Char.isWhitespace).reverse

/-- Python `s.strip()`. -/
def pyStrip (s : String) : String :=
  String.mk (listStrip s.data)

/-- Numeric value of a decimal digit character. -/
def digitVal (c : Char) : Nat :=
  c.toNat - 48

/-- Value of a list of decimal digit characters, most significant first. -/
def digitsToNat (l : List Char) : Nat :=
  l.foldl (fun a c => a * 10 + digitVal c) 0

/-- A Python float as produced by `float(...)`: a finite value (modelled
exactly as a rational; every numeric literal the claims exercise is exactly
representable) or one of the special values. -/
inductive PyFloat where
  | finite (q : ℚ)
  | nan
  | inf
  | ninf
deriving DecidableEq

/-- Mantissa of a Python float literal: `digits`, `digits.`, `.digits` or
`digits.digits`; returns its value and the unconsumed rest. -/
def parseMantissa (l : List Char) : Option (ℚ × List Char) :=
  let ip := l.takeWhile Char.isDigit
  let r1 := l.dropWhile Char.isDigit
  match r1 with
  | '.' :: r2 =>
    let fp := r2.takeWhile Char.isDigit
    let r3 := r2.dropWhile Char.isDigit
    if ip.isEmpty && fp.isEmpty then none
    else some ((digitsToNat ip : ℚ) + (digitsToNat fp : ℚ) / (10 : ℚ) ^ fp.length, r3)
  | _ => if ip.isEmpty then none else some ((digitsToNat ip : ℚ), r1)

/-- Optional exponent part `e[+|-]digits` of a Python float literal. -/
def parseExpPart (l : List Char) : Option (ℤ × List Char) :=
  match l with
  | [] => some (0, [])
  | c :: r =>
    if c = 'e' ∨ c = 'E' then
      let sr : Bool × List Char :=
        match r with
        | '+' :: rr => (false, rr)
        | '-' :: rr => (true, rr)
        | _ => (false, r)
      let ds := sr.2.takeWhile Char.isDigit
      let r3 := sr.2.dropWhile Char.isDigit
      if ds.isEmpty then none
      else some ((if sr.1 then -(digitsToNat ds : ℤ) else (digitsToNat ds : ℤ)), r3)
    else some (0, l)

/-- Python `float(s)` on a string: strip whitespace, optional sign, then
`nan`, `inf`/`infinity` (case-insensitive) or a decimal literal with
optional exponent; anything else raises (`none`). -/
def pyFloatOfString (s : String) : Option PyFloat :=
  let l0 := listStrip s.data
  let sr : Bool × List Char :=
    match l0 with
    | '+' :: r => (false, r)
    | '-' :: r => (true, r)
    | _ => (false, l0)
  let low := sr.2.map Char.toLower
  if low = ['n', 'a', 'n'] then some PyFloat.nan
  else if low = ['i', 'n', 'f'] ∨ low = ['i', 'n', 'f', 'i', 'n', 'i', 't', 'y'] then
    some (if sr.1 then PyFloat.ninf else PyFloat.inf)
  else
    match parseMantissa sr.2 with
    | none => none
    | some (m, r) =>
      match parseExpPart r with
      | some (e, []) => some (PyFloat.finite ((if sr.1 then -m else m) * (10 : ℚ) ^ e))
      | _ => none

/-- Python `int(f)` on a float: truncation toward zero on finite values,
raises (`none`) on `nan` and the infinities. -/
def pyIntOfFloat : PyFloat → Option ℤ
  | .finite q => some (if 0 ≤ q then ⌊q⌋ else ⌈q⌉)
  | _ => none

/-- Python `float(cell)`: a `NaN` cell is already the float `nan`; a string
cell is parsed. -/
def pyFloatOfCell : Cell → Option PyFloat
  | .nan => some PyFloat.nan
  | .str s => pyFloatOfString s

/-- Python `str(cell)`: `str(float("nan"))` is the literal `"nan"`. -/
def pyStrOfCell : Cell → String
  | .nan => "nan"
  | .str s => s

/-- `normalize_phone` (function_app.py lines 97-103): `None` and `""` map
to `""`; otherwise strip, then `str(int(float(s)))`, and on any parse
failure return the stripped string unchanged. -/
def normalize_phone (phone : Option String) : String :=
  match phone with
  | none => ""
  | some p =>
    if p = "" then ""
    else
      let s := pyStrip p
      match (pyFloatOfString s).bind pyIntOfFloat with
      | some n => toString n
      | none => s

/-- What the lookup step of `process_row` can deliver: the pair returned by
`async_ask_perplexity` (whose number is `None` on API failure or when no
number was found in the answer), or an `asyncio.TimeoutError`, which the
code converts to `(None, "")`. -/
inductive LookupOutcome where
  | timedOut
  | answered (num : Option String) (src : String)
deriving DecidableEq

/-- The fallback expression of `process_row` (function_app.py lines
186-190): `str(int(float(fb)))`, or `str(fb).strip()` when that raises. -/
def fallbackNum (fb : Cell) : String :=
  match (pyFloatOfCell fb).bind pyIntOfFloat with
  | some n => toString n
  | none => pyStrip (pyStrOfCell fb)

/-- `process_row` (function_app.py lines 171-193) after the lookup call has
delivered `outcome`: if the lookup produced no (truthy) number, fall back to
the record's fallback phone cell and mark the source `"Ingen kilde"`; either
way the returned number goes through `normalize_phone`. -/
def process_row (idx : Nat) (row : Record) (outcome : LookupOutcome) :
    Nat × String × String :=
  let ns : Option String × String :=
    match outcome with
    | .timedOut => (none, "")
    | .answered n s => (n, s)
  if ns.1 = none ∨ ns.1 = some "" then
    (idx, normalize_phone (some (fallbackNum row.fallback)), "Ingen kilde")
  else
    (idx, normalize_phone ns.1, if ns.2 = "" then "" else ns.2)

/-- C2 (counterexample): a record whose fallback cell holds the literal
string `"nan"`, after a lookup that found no number, resolves to the phone
string `"nan"` — not to the empty phone the claim states. -/
theorem C2_counterexample :
    process_row 7 ⟨.str "X", .str "Y", .str "nan"⟩ (.answered none "")
        = (7, "nan", "Ingen kilde")
  ∧ process_row 7 ⟨.str "X", .str "Y", .str "nan"⟩ (.answered none "")
        ≠ (7, "", "Ingen kilde") := by
  decide

/-- C2 (amended): for every selected record whose lookup yields no usable
phone (API failure, absent number, or timeout), the result carries the
`"Ingen kilde"` (no source) marker, but its phone is the record's fallback
cell passed through the numeric-parse-else-passthrough normalization —
not the empty string: a fallback of `"nan"` yields `(idx, "nan", "Ingen
kilde")` and a fallback of `"Proff Telefon"` yields
`(idx, "Proff Telefon", "Ingen kilde")`. -/
theorem C2_amended :
    (∀ (idx : Nat) (row : Record) (src : String),
        process_row idx row (.answered none src)
          = (idx, normalize_phone (some (fallbackNum row.fallback)), "Ingen kilde")
      ∧ process_row idx row .timedOut
          = (idx, normalize_phone (some (fallbackNum row.fallback)), "Ingen kilde"))
  ∧ process_row 7 ⟨.str "X", .str "Y", .str "nan"⟩ (.answered none "")
      = (7, "nan", "Ingen kilde")
  ∧ process_row 7 ⟨.str "X", .str "Y", .str "Proff Telefon"⟩ .timedOut
      = (7, "Proff Telefon", "Ingen kilde") := by
  refine ⟨fun idx row src => ⟨?_, ?_⟩, by decide, by decide⟩ <;> simp [process_row]

/-- A word character in the sense of the regex `\b` boundary.  Python's
`re` on `str` patterns uses the Unicode word class here; the model uses its
ASCII restriction `[A-Za-z0-9_]`, with which it agrees exactly on ASCII
text, and the C3 characterization below is correspondingly stated for
ASCII inputs (`isAsciiChar`). -/
def isWordChar (c : Char) : Bool :=
  c.isAlphanum || c = '_'

/-- An ASCII character.  Python's `re` interprets `\d`/`\D` as the Unicode
decimal-digit class and `\b` via the Unicode word class; on ASCII text
those coincide exactly with `Char.isDigit` and `isWordChar`, so the
universally quantified parts of C3 are scoped to ASCII text. -/
def isAsciiChar (c : Char) : Bool :=
  c.toNat < 128

/-- `l` starts with exactly the pattern tail `(\d{8})\b`: its first 8
characters exist and are all digits, and the character after them (if any)
is not a word character. -/
def eightDigitBlockAt (l : List Char) : Bool :=
  (l.take 8).length == 8 && (l.take 8).all Char.isDigit &&
    (match l.drop 8 with
     | [] => true
     | c :: _ => !isWordChar c)

/-- Some suffix of `l` starts with an 8-digit block ending at a word
boundary, i.e. `l` contains 8 contiguous digits ending at a word
boundary. -/
def hasEightDigitBlock : List Char → Bool
  | [] => false
  | c :: rest => eightDigitBlockAt (c :: rest) || hasEightDigitBlock rest

/-- The tail `\D*(\d{8})\b` of `PHONE_RE` matched at a fixed position:
`\D*` can only consume the maximal run of non-digits (it cannot eat a
digit and `\d{8}` cannot start on a non-digit), after which an 8-digit
block ending at a word boundary must follow. -/
def phoneCore (l : List Char) : Option String :=
  let lt := l.dropWhile (fun c => !c.isDigit)
  if eightDigitBlockAt lt then some (String.mk (lt.take 8)) else none

/-- One attempt of `PHONE_RE = (?:0047|\+47)?\D*(\d{8})\b` at a fixed start
position: the greedy optional group tries the literal `0047`, then `+47`,
then matches empty, exactly in the regex engine's backtracking order. -/
def phoneTry (l : List Char) : Option String :=
  match (if l.take 4 = ['0', '0', '4', '7'] then phoneCore (l.drop 4) else none) with
  | some r => some r
  | none =>
    match (if l.take 3 = ['+', '4', '7'] then phoneCore (l.drop 3) else none) with
    | some r => some r
    | none => phoneCore l

/-- `re.search` with `PHONE_RE`: try each start position left to right. -/
def phoneSearch : List Char → Option String
  | [] => phoneTry []
  | c :: rest =>
    match phoneTry (c :: rest) with
    | some r => some r
    | none => phoneSearch rest

/-- `extract_phone` (function_app.py lines 92-95): `None`/empty text yields
`None`, otherwise the first capture of `PHONE_RE` in the text. -/
def extract_phone (text : Option String) : Option String :=
  match text with
  | none => none
  | some t => if t = "" then none else phoneSearch t.data

theorem phoneCore_some (l : List Char) (d : String) (h : phoneCore l = some d) :
    eightDigitBlockAt (l.dropWhile (fun ch => !ch.isDigit)) = true
      ∧ d = String.mk ((l.dropWhile (fun ch => !ch.isDigit)).take 8) := by
  simp only [phoneCore] at h
  split at h
  case isTrue hc =>
    cases h
    exact ⟨hc, rfl⟩
  case isFalse hc => cases h

theorem phoneCore_of_block (l : List Char) (h : eightDigitBlockAt l = true) :
    phoneCore l = some (String.mk (l.take 8)) := by
  have hdw : l.dropWhile (fun ch => !ch.isDigit) = l := by
    match l with
    | [] => rfl
    | c :: rest =>
      have hall := h
      simp only [eightDigitBlockAt, Bool.and_eq_true] at hall
      have hc : c.isDigit = true := by
        have h8 := hall.1.2
        have h8b : List.take 8 (c :: rest) = c :: List.take 7 rest := rfl
        rw [h8b, List.all_cons, Bool.and_eq_true] at h8
        exact h8.1
      rw [List.dropWhile_cons, hc]
      simp
  unfold phoneCore
  rw [hdw, if_pos h]

theorem hasBlock_of_suffix :
    ∀ (l t : List Char), t <:+ l → eightDigitBlockAt t = true →
      hasEightDigitBlock l = true := by
  intro l
  induction l with
  | nil =>
    intro t hsuf hb
    rw [List.suffix_nil] at hsuf
    subst hsuf
    exact absurd hb (by decide)
  | cons c rest ih =>
    intro t hsuf hb
    rcases List.suffix_cons_iff.mp hsuf with rfl | hsuf2
    · rw [hasEightDigitBlock, hb, Bool.true_or]
    · rw [hasEightDigitBlock, ih t hsuf2 hb, Bool.or_true]

theorem phoneTry_some (l : List Char) (d : String) (h : phoneTry l = some d) :
    ∃ t, t <:+ l ∧ phoneCore t = some d := by
  unfold phoneTry at h
  split at h
  case h_1 r heq =>
    cases h
    split at heq
    · exact ⟨l.drop 4, List.drop_suffix 4 l, heq⟩
    · cases heq
  case h_2 =>
    split at h
    case h_1 r heq =>
      cases h
      split at heq
      · exact ⟨l.drop 3, List.drop_suffix 3 l, heq⟩
      · cases heq
    case h_2 => exact ⟨l, List.suffix_refl l, h⟩

theorem phoneTry_isSome_of_core (l : List Char) (d : String)
    (h : phoneCore l = some d) : (phoneTry l).isSome = true := by
  unfold phoneTry
  split
  · rfl
  · split
    · rfl
    · rw [h]
      rfl

theorem phoneSearch_some (l : List Char) (d : String) (h : phoneSearch l = some d) :
    ∃ t, t <:+ l ∧ eightDigitBlockAt t = true ∧ d = String.mk (t.take 8) := by
  induction l with
  | nil =>
    have hnone : phoneSearch [] = none := by decide
    rw [hnone] at h
    cases h
  | cons c rest ih =>
    rw [phoneSearch] at h
    split at h
    case h_1 r heq =>
      cases h
      obtain ⟨t, hsuf, hcore⟩ := phoneTry_some _ _ heq
      obtain ⟨hb, rfl⟩ := phoneCore_some t _ hcore
      exact ⟨t.dropWhile (fun ch => !ch.isDigit),
        (List.dropWhile_suffix _).trans hsuf, hb, rfl⟩
    case h_2 =>
      obtain ⟨t, hsuf, hb, hd⟩ := ih h
      exact ⟨t, hsuf.trans (List.suffix_cons c rest), hb, hd⟩

theorem phoneSearch_isSome_of_block :
    ∀ (l : List Char), hasEightDigitBlock l = true → (phoneSearch l).isSome = true := by
  intro l
  induction l with
  | nil =>
    intro h
    exact absurd h (by decide)
  | cons c rest ih =>
    intro h
    rw [hasEightDigitBlock, Bool.or_eq_true] at h
    rw [phoneSearch]
    rcases h with hb | hr
    · have hsome := phoneTry_isSome_of_core _ _ (phoneCore_of_block _ hb)
      split
      · rfl
      case h_2 heq =>
        rw [heq] at hsome
        simp at hsome
    · split
      · rfl
      · exact ih hr

/-- C3 (counterexample): the spec's example is wrong on the code:
`extract_phone("+47 91 23 45 67")` is `None`, not `"91234567"`, because
`\d{8}` only matches 8 contiguous digit characters and the example's digits
are broken into spaced pairs. -/
theorem C3_counterexample :
    extract_phone (some "+47 91 23 45 67") = none
  ∧ extract_phone (some "+47 91 23 45 67") ≠ some "91234567" := by
  decide

/-- C3 (amended): for ASCII text (on which the model's ASCII digit/word
classes agree exactly with the Unicode classes Python's `re` uses for `\d`
and `\b`), `extract_phone` returns a result exactly when the text contains
8 contiguous digit characters ending at a word boundary — the optional
`0047`/`+47` prefix and the arbitrary non-digit separators before the
digit block affect only which digits are captured, never whether a match
exists — and whatever it returns is a string of exactly 8 digit characters
occurring contiguously in the text; digits broken up by separators are not
found: `extract_phone("+4791234567") == "91234567"` and
`extract_phone("0047 91234567") == "91234567"`, but
`extract_phone("+47 91 23 45 67")` and `extract_phone("call me")` are
`None`. -/
theorem C3_amended :
    (∀ (s d : String), s.data.all isAsciiChar = true →
        extract_phone (some s) = some d →
        d.length = 8 ∧ d.data.all Char.isDigit = true ∧ d.data <:+: s.data)
  ∧ (∀ (s : String), s.data.all isAsciiChar = true →
        ((extract_phone (some s)).isSome = true ↔ hasEightDigitBlock s.data = true))
  ∧ extract_phone (some "+4791234567") = some "91234567"
  ∧ extract_phone (some "0047 91234567") = some "91234567"
  ∧ extract_phone (some "+47 91 23 45 67") = none
  ∧ extract_phone (some "call me") = none := by
  refine ⟨?_, ?_, by decide, by decide, by decide, by decide⟩
  · intro s d _ h
    have hred : extract_phone (some s) = if s = "" then none else phoneSearch s.data := rfl
    have hps : phoneSearch s.data = some d := by
      rw [hred] at h
      split at h
      · cases h
      · exact h
    obtain ⟨t, hsuf, hb, rfl⟩ := phoneSearch_some _ _ hps
    have hb2 := hb
    simp only [eightDigitBlockAt, Bool.and_eq_true, beq_iff_eq] at hb2
    refine ⟨hb2.1.1, hb2.1.2, ?_⟩
    exact List.IsInfix.trans (List.IsPrefix.isInfix (List.take_prefix 8 t))
      (List.IsSuffix.isInfix hsuf)
  · intro s _
    have hred : extract_phone (some s) = if s = "" then none else phoneSearch s.data := rfl
    constructor
    · intro hsome
      obtain ⟨d, hd⟩ := Option.isSome_iff_exists.mp hsome
      have hps : phoneSearch s.data = some d := by
        rw [hred] at hd
        split at hd
        · cases hd
        · exact hd
      obtain ⟨t, hsuf, hb, -⟩ := phoneSearch_some _ _ hps
      exact hasBlock_of_suffix _ _ hsuf hb
    · intro hblock
      rw [hred]
      split
      case isTrue hs =>
        subst hs
        exact absurd hblock (by decide)
      case isFalse hs =>
        exact phoneSearch_isSome_of_block _ hblock

/-- C3 (witness for the amended theorem's universally quantified parts,
instantiated at the concrete ASCII input `"+4791234567"` with its
successful extraction). -/
theorem C3_amended_witness :
    (("91234567" : String).length = 8
        ∧ ("91234567" : String).data.all Char.isDigit = true
        ∧ ("91234567" : String).data <:+: ("+4791234567" : String).data)
  ∧ ((extract_phone (some "+4791234567")).isSome = true
        ↔ hasEightDigitBlock ("+4791234567" : String).data = true) :=
  ⟨C3_amended.1 "+4791234567" "91234567" (by decide) (by decide),
   C3_amended.2.1 "+4791234567" (by decide)⟩

/-- Round half to even, the tie-breaking rule of Python `round`. -/
def roundHalfEven (q : ℚ) : ℤ :=
  if q - ⌊q⌋ < 1 / 2 then ⌊q⌋
  else if 1 / 2 < q - ⌊q⌋ then ⌊q⌋ + 1
  else if 2 ∣ ⌊q⌋ then ⌊q⌋ else ⌊q⌋ + 1

/-- Python `round(x, 2)` on the exact-rational model of the float `x`. -/
def pyRound2 (q : ℚ) : ℚ :=
  (roundHalfEven (q * 100) : ℚ) / 100

/-- A progress document as uploaded to the `progress` container (the
`lastUpdate` wall-clock timestamp carries no claimed content and is
omitted). -/
structure ProgressSnap where
  processed : Nat
  total : Nat
  percentage : ℚ
deriving DecidableEq

/-- `results[idx] = (num, src)` viewed on the keys of the results dict:
inserting an existing key leaves the key set unchanged. -/
def resultsInsert (acc : List Nat) (idx : Nat) : List Nat :=
  if idx ∈ acc then acc else acc ++ [idx]

/-- The `as_completed` publication loop of `process_xlsx_v2`
(function_app.py lines 255-264): for each completed row index, insert it
into the results dict and publish a snapshot with `done = len(results)` and
`percentage = round(done/total*100, 2)`.  (Python would raise
`ZeroDivisionError` on `total = 0`, but the loop body is unreachable then:
the completion list is empty whenever the working set is.) -/
def progressLoop (total : Nat) : List Nat → List Nat → List ProgressSnap
  | _, [] => []
  | acc, idx :: rest =>
    ⟨(resultsInsert acc idx).length, total,
        pyRound2 (((resultsInsert acc idx).length : ℚ) / (total : ℚ) * 100)⟩
      :: progressLoop total (resultsInsert acc idx) rest

/-- One write to the blob store performed by `process_xlsx_v2`: a progress
document upload or the final results-workbook upload. -/
inductive BlobWrite where
  | progress (snap : ProgressSnap)
  | result
deriving DecidableEq

def BlobWrite.isProgress : BlobWrite → Bool
  | .progress _ => true
  | .result => false

/-- Lowercasing, Python `str.lower()` (ASCII; the alias lists are ASCII). -/
def pyLower (s : String) : String :=
  String.mk (s.data.map Char.toLower)

/-- Contiguous-sublist test on character lists. -/
def listSub (needle : List Char) : List Char → Bool
  | [] => needle.isEmpty
  | c :: rest => needle.isPrefixOf (c :: rest) || listSub needle rest

/-- Python's substring operator `needle in hay`. -/
def pyInStr (needle hay : String) : Bool :=
  listSub needle.data hay.data

def COMPANY_ALIASES : List String :=
  ["juridisk selskapsnavn", "selskapsnavn", "bedrift", "company", "firma", "firmanavn"]

def ORGNR_ALIASES : List String :=
  ["organisasjonsnummer", "orgnr", "org.nr", "org nr", "organisasjons nr"]

def PERSON_ALIASES : List String :=
  ["kontaktperson", "person", "navn", "name", "kontakt person"]

def PHONE_ALIASES : List String :=
  ["telefon", "telefonnummer", "mobil", "mobilnummer", "tlf", "kontaktperson telefon", "proff telefon"]

/-- `find_column` (function_app.py lines 84-90): for each alias in order,
scan the lowercased column names and return the first original column name
that contains the alias as a substring. -/
def find_column (cols : List String) : List String → Option String
  | [] => none
  | a :: rest =>
    match (cols.zip (cols.map pyLower)).find? (fun p => pyInStr a p.2) with
    | some p => some p.1
    | none => find_column cols rest

/-- The blob-write behaviour of `process_xlsx_v2` (function_app.py lines
200-303) as a pure function of the parsed column names, the input records
and the completion order of the scheduled row tasks.  Faithful to the
source order: column resolution and the `ValueError` (`"Mangler kolonner"`)
precede row selection, container setup, the initial progress upload, the
per-completion progress uploads, and the final results upload; the error
path therefore performs no write at all. -/
def process_xlsx_v2 (cols : List String) (records : List Record) (order : List Nat) :
    Except String (List BlobWrite) :=
  if find_column cols COMPANY_ALIASES = none ∨ find_column cols ORGNR_ALIASES = none
      ∨ find_column cols PERSON_ALIASES = none then
    Except.error "Mangler kolonner"
  else
    Except.ok
      (BlobWrite.progress ⟨0, (selectRows records).length, 0⟩
        :: ((progressLoop (selectRows records).length [] order).map BlobWrite.progress
            ++ [BlobWrite.result]))

theorem progressLoop_length (total : Nat) :
    ∀ (order acc : List Nat), (progressLoop total acc order).length = order.length := by
  intro order
  induction order with
  | nil => intro acc; rfl
  | cons idx rest ih =>
    intro acc
    simp only [progressLoop, List.length_cons, ih]

theorem progressLoop_eq (total : Nat) :
    ∀ (order acc : List Nat), order.Nodup → (∀ i ∈ order, i ∉ acc) →
      progressLoop total acc order
        = (List.range' (acc.length + 1) order.length).map
            (fun k => ⟨k, total, pyRound2 ((k : ℚ) / (total : ℚ) * 100)⟩) := by
  intro order
  induction order with
  | nil => intro acc _ _; rfl
  | cons idx rest ih =>
    intro acc hnd hdisj
    have hni : idx ∉ acc := hdisj idx (List.mem_cons_self idx rest)
    have hstep : resultsInsert acc idx = acc ++ [idx] := if_neg hni
    have hlen : (resultsInsert acc idx).length = acc.length + 1 := by
      rw [hstep]; simp
    rw [progressLoop, List.length_cons, List.range'_succ, List.map_cons, hlen]
    have hrest : progressLoop total (resultsInsert acc idx) rest
        = (List.range' (acc.length + 1 + 1) rest.length).map
            (fun k => ⟨k, total, pyRound2 ((k : ℚ) / (total : ℚ) * 100)⟩) := by
      have h1 : rest.Nodup := (List.nodup_cons.mp hnd).2
      have h2 : ∀ i ∈ rest, i ∉ resultsInsert acc idx := by
        intro i hi
        rw [hstep]
        simp only [List.mem_append, List.mem_singleton]
        rintro (hia | rfl)
        · exact hdisj i (List.mem_cons_of_mem idx hi) hia
        · exact (List.nodup_cons.mp hnd).1 hi
      rw [ih (resultsInsert acc idx) h1 h2, hlen]
    rw [hrest]

theorem pyRound2_100 : pyRound2 100 = 100 := by
  norm_num [pyRound2, roundHalfEven]

/-- C4: for every working set of size `N ≥ 1` and every duplicate-free
completion order of its rows, the per-completion publication loop publishes
exactly `N` snapshots; their `processed` fields are `1, 2, ..., N`
(strictly increasing by 1, never exceeding `total`), every snapshot's
`total` is `N`, and the final snapshot is `processed = total = N` with
percentage exactly 100. -/
theorem C4_progress_snapshots (order : List Nat) (N : Nat)
    (h1 : order.Nodup) (h2 : order.length = N) (h3 : 1 ≤ N) :
    (progressLoop N [] order).length = N
  ∧ (progressLoop N [] order).map ProgressSnap.processed = List.range' 1 N
  ∧ (∀ s ∈ progressLoop N [] order, s.total = N ∧ s.processed ≤ N)
  ∧ (progressLoop N [] order).getLast? = some ⟨N, N, 100⟩ := by
  have heq := progressLoop_eq N order [] h1 (by intro i _; exact List.not_mem_nil i)
  simp only [List.length_nil, Nat.zero_add, h2] at heq
  refine ⟨?_, ?_, ?_, ?_⟩
  · rw [heq, List.length_map, List.length_range']
  · rw [heq, List.map_map]
    have hcomp : (ProgressSnap.processed ∘
        fun k => (⟨k, N, pyRound2 ((k : ℚ) / (N : ℚ) * 100)⟩ : ProgressSnap)) = id := rfl
    rw [hcomp, List.map_id]
  · rw [heq]
    intro s hs
    simp only [List.mem_map] at hs
    obtain ⟨k, hk, rfl⟩ := hs
    rw [List.mem_range'_1] at hk
    exact ⟨rfl, by show k ≤ N; omega⟩
  · rw [heq]
    obtain ⟨m, rfl⟩ : ∃ m, N = m + 1 := ⟨N - 1, by omega⟩
    rw [List.range'_concat, List.map_append]
    simp only [List.map_cons, List.map_nil]
    rw [List.getLast?_concat]
    have h5 : 1 + 1 * m = m + 1 := by ring
    rw [h5]
    have h6 : ((m + 1 : ℕ) : ℚ) ≠ 0 := by positivity
    have h7 : ((m + 1 : ℕ) : ℚ) / ((m + 1 : ℕ) : ℚ) * 100 = 100 := by
      rw [div_self h6, one_mul]
    rw [h7, pyRound2_100]

/-- C4 (witness): the three-row working set completed in the order
2, 0, 1. -/
theorem C4_witness :
    (progressLoop 3 [] [2, 0, 1]).length = 3
  ∧ (progressLoop 3 [] [2, 0, 1]).map ProgressSnap.processed = List.range' 1 3
  ∧ (∀ s ∈ progressLoop 3 [] [2, 0, 1], s.total = 3 ∧ s.processed ≤ 3)
  ∧ (progressLoop 3 [] [2, 0, 1]).getLast? = some ⟨3, 3, 100⟩ :=
  C4_progress_snapshots [2, 0, 1] 3 (by decide) (by decide) (by decide)

/-- C5 (counterexample): on an empty working set the run writes exactly one
progress document — the initial snapshot — and its percentage field is the
literal 0, not 100: the final published snapshot violates the claimed
`percentage == 100`. -/
theorem C5_counterexample :
    process_xlsx_v2 ["Bedrift", "Orgnr", "Navn", "Telefon"] [] []
        = Except.ok [BlobWrite.progress ⟨0, 0, 0⟩, BlobWrite.result]
  ∧ (ProgressSnap.mk 0 0 0).percentage ≠ 100 := by
  refine ⟨rfl, by norm_num⟩

/-- C5 (amended): when the working set is empty, the per-completion loop
never runs, so the run's final (and only) published progress snapshot is
the initial one, with `processed == total == 0` and `percentage == 0` —
not 100.  (A `total == 0` document with percentage 100 is never produced
by the code.) -/
theorem C5_empty_run (cols : List String) (records : List Record) (c1 c2 c3 : String)
    (h1 : find_column cols COMPANY_ALIASES = some c1)
    (h2 : find_column cols ORGNR_ALIASES = some c2)
    (h3 : find_column cols PERSON_ALIASES = some c3)
    (h0 : selectRows records = []) :
    process_xlsx_v2 cols records []
      = Except.ok [BlobWrite.progress ⟨0, 0, 0⟩, BlobWrite.result] := by
  unfold process_xlsx_v2
  rw [if_neg (by simp [h1, h2, h3])]
  rw [h0]
  rfl

/-- C5 (witness): an input with resolvable columns and no records. -/
theorem C5_witness :
    process_xlsx_v2 ["Bedrift", "Orgnr", "Navn", "Telefon"] [] []
      = Except.ok [BlobWrite.progress ⟨0, 0, 0⟩, BlobWrite.result] :=
  C5_empty_run ["Bedrift", "Orgnr", "Navn", "Telefon"] [] "Bedrift" "Orgnr" "Navn"
    (by decide) (by decide) (by decide) (by decide)

/-- C8: if the company column or the person column cannot be resolved, the
run raises the configuration error (`ValueError`, "Mangler kolonner")
before selecting rows, scheduling any row task, or performing any blob
write: its write log is empty — the external store is untouched and no
partial processing happens. -/
theorem C8_config_error_no_writes (cols : List String) (records : List Record)
    (order : List Nat)
    (h : find_column cols COMPANY_ALIASES = none ∨ find_column cols PERSON_ALIASES = none) :
    process_xlsx_v2 cols records order = Except.error "Mangler kolonner" := by
  unfold process_xlsx_v2
  rcases h with h | h
  · rw [if_pos (Or.inl h)]
  · rw [if_pos (Or.inr (Or.inr h))]

/-- C8 (witness): a header list in which no company alias occurs. -/
theorem C8_witness :
    process_xlsx_v2 ["foo"] [] [] = Except.error "Mangler kolonner" :=
  C8_config_error_no_writes ["foo"] [] [] (Or.inl (by decide))

theorem filter_isProgress_map (l : List ProgressSnap) :
    (l.map BlobWrite.progress).filter BlobWrite.isProgress = l.map BlobWrite.progress := by
  induction l with
  | nil => rfl
  | cons a t ih => simp [List.filter_cons, BlobWrite.isProgress, ih]

/-- C10: whenever the columns resolve, the very first blob write of the run
(before any row completes, and also when the working set is empty) is the
initial progress snapshot `processed = 0`, `total = N`, `percentage = 0`
for `N` the working-set size; and a run whose `N` scheduled rows all
complete publishes `N + 1` progress documents in total. -/
theorem C10_initial_snapshot (cols : List String) (records : List Record)
    (order : List Nat) (c1 c2 c3 : String)
    (h1 : find_column cols COMPANY_ALIASES = some c1)
    (h2 : find_column cols ORGNR_ALIASES = some c2)
    (h3 : find_column cols PERSON_ALIASES = some c3)
    (h4 : order.length = (selectRows records).length) :
    ∃ ws, process_xlsx_v2 cols records order = Except.ok ws
      ∧ ws.head? = some (BlobWrite.progress ⟨0, (selectRows records).length, 0⟩)
      ∧ (ws.filter BlobWrite.isProgress).length = (selectRows records).length + 1 := by
  refine ⟨BlobWrite.progress ⟨0, (selectRows records).length, 0⟩
      :: ((progressLoop (selectRows records).length [] order).map BlobWrite.progress
          ++ [BlobWrite.result]), ?_, rfl, ?_⟩
  · unfold process_xlsx_v2
    rw [if_neg (by simp [h1, h2, h3])]
  · simp [List.filter_cons, List.filter_append, filter_isProgress_map,
      BlobWrite.isProgress, progressLoop_length, h4]

/-- C10 (witness): one resolvable record completed in order. -/
theorem C10_witness :
    ∃ ws, process_xlsx_v2 ["Bedrift", "Orgnr", "Navn"]
            [⟨.str "Acme", .str "Ola", .str ""⟩] [0] = Except.ok ws
      ∧ ws.head? = some (BlobWrite.progress
          ⟨0, (selectRows [⟨.str "Acme", .str "Ola", .str ""⟩]).length, 0⟩)
      ∧ (ws.filter BlobWrite.isProgress).length
          = (selectRows [⟨.str "Acme", .str "Ola", .str ""⟩]).length + 1 :=
  C10_initial_snapshot ["Bedrift", "Orgnr", "Navn"] [⟨.str "Acme", .str "Ola", .str ""⟩]
    [0] "Bedrift" "Orgnr" "Navn" (by decide) (by decide) (by decide) (by decide)

/-- `TokenBucketLimiter` state (function_app.py lines 26-32); token counts
and monotonic-clock times are exact rationals. -/
structure TokenBucketLimiter where
  capacity : ℚ
  tokens : ℚ
  fill_rate : ℚ
  last_time : ℚ
deriving DecidableEq

/-- `TokenBucketLimiter.__init__(capacity, period)` read at clock time
`now`: full bucket, `fill_rate = capacity / period`. -/
def TokenBucketLimiter.init (capacity : Nat) (period : ℚ) (now : ℚ) : TokenBucketLimiter :=
  ⟨capacity, capacity, (capacity : ℚ) / period, now⟩

/-- The refill at the head of `acquire` (lines 36-39): add
`elapsed * fill_rate` tokens, capped at `capacity`, and stamp the clock. -/
def refillAt (b : TokenBucketLimiter) (now : ℚ) : TokenBucketLimiter :=
  { b with
      tokens := min b.capacity (b.tokens + (now - b.last_time) * b.fill_rate)
      last_time := now }

/-- One lock-protected attempt of `acquire` (lines 35-44) at clock time
`now`: refill, then either consume one token and return success, or leave
the refilled state and fail (the Python coroutine then sleeps and calls
`acquire` again — the next attempt of the trace, at a later time). -/
def acquireStep (b : TokenBucketLimiter) (now : ℚ) : TokenBucketLimiter × Bool :=
  let br := refillAt b now
  if 1 ≤ br.tokens then ({ br with tokens := br.tokens - 1 }, true)
  else (br, false)

/-- The states the limiter passes through under a trace of attempt times:
the state before each attempt, plus the final state. -/
def bucketStates (b : TokenBucketLimiter) : List ℚ → List TokenBucketLimiter
  | [] => [b]
  | t :: ts => b :: bucketStates (acquireStep b t).1 ts

/-- Number of successful acquisitions whose completion time lies in the
half-open window `(s, s + P]`, along a trace of attempt times. -/
def windowCount (b : TokenBucketLimiter) (s P : ℚ) : List ℚ → Nat
  | [] => 0
  | t :: ts =>
    (if (acquireStep b t).2 = true ∧ s < t ∧ t ≤ s + P then 1 else 0)
      + windowCount (acquireStep b t).1 s P ts

theorem refillAt_tokens (b : TokenBucketLimiter) (now : ℚ) :
    (refillAt b now).tokens
      = min b.capacity (b.tokens + (now - b.last_time) * b.fill_rate) := rfl

theorem refillAt_fields (b : TokenBucketLimiter) (now : ℚ) :
    (refillAt b now).capacity = b.capacity ∧ (refillAt b now).fill_rate = b.fill_rate
      ∧ (refillAt b now).last_time = now :=
  ⟨rfl, rfl, rfl⟩

theorem acquireStep_pos (b : TokenBucketLimiter) (now : ℚ)
    (h : 1 ≤ (refillAt b now).tokens) :
    acquireStep b now
      = ({ refillAt b now with tokens := (refillAt b now).tokens - 1 }, true) := by
  unfold acquireStep
  rw [if_pos h]

theorem acquireStep_neg (b : TokenBucketLimiter) (now : ℚ)
    (h : ¬ 1 ≤ (refillAt b now).tokens) :
    acquireStep b now = (refillAt b now, false) := by
  unfold acquireStep
  rw [if_neg h]

theorem acquireStep_fields (b : TokenBucketLimiter) (now : ℚ) :
    (acquireStep b now).1.capacity = b.capacity
  ∧ (acquireStep b now).1.fill_rate = b.fill_rate
  ∧ (acquireStep b now).1.last_time = now := by
  by_cases h : 1 ≤ (refillAt b now).tokens
  · rw [acquireStep_pos b now h]
    exact ⟨rfl, rfl, rfl⟩
  · rw [acquireStep_neg b now h]
    exact ⟨rfl, rfl, rfl⟩

theorem acquireStep_inv (b : TokenBucketLimiter) (now : ℚ)
    (h0 : 0 ≤ b.tokens) (h2 : 0 ≤ b.fill_rate) (h3 : 0 ≤ b.capacity)
    (h4 : b.last_time ≤ now) :
    0 ≤ (acquireStep b now).1.tokens ∧ (acquireStep b now).1.tokens ≤ b.capacity := by
  have hd : 0 ≤ (now - b.last_time) * b.fill_rate := mul_nonneg (by linarith) h2
  have hr0 : 0 ≤ (refillAt b now).tokens := by
    rw [refillAt_tokens]
    exact le_min h3 (by linarith)
  have hr1 : (refillAt b now).tokens ≤ b.capacity := by
    rw [refillAt_tokens]
    exact min_le_left _ _
  by_cases h : 1 ≤ (refillAt b now).tokens
  · rw [acquireStep_pos b now h]
    constructor
    · show (0 : ℚ) ≤ (refillAt b now).tokens - 1
      linarith
    · show (refillAt b now).tokens - 1 ≤ b.capacity
      linarith
  · rw [acquireStep_neg b now h]
    exact ⟨hr0, hr1⟩

theorem bucketStates_inv :
    ∀ (ts : List ℚ) (b : TokenBucketLimiter),
      0 ≤ b.tokens → b.tokens ≤ b.capacity → 0 ≤ b.fill_rate → 0 ≤ b.capacity →
      List.Chain' (· ≤ ·) (b.last_time :: ts) →
      ∀ x ∈ bucketStates b ts, 0 ≤ x.tokens ∧ x.tokens ≤ x.capacity := by
  intro ts
  induction ts with
  | nil =>
    intro b h0 h1 _ _ _ x hx
    simp only [bucketStates, List.mem_singleton] at hx
    subst hx
    exact ⟨h0, h1⟩
  | cons t ts ih =>
    intro b h0 h1 h2 h3 hchain x hx
    obtain ⟨hbt, hrest⟩ := List.chain'_cons.mp hchain
    simp only [bucketStates, List.mem_cons] at hx
    rcases hx with rfl | hx
    · exact ⟨h0, h1⟩
    · obtain ⟨hcap, hrate, hlast⟩ := acquireStep_fields b t
      obtain ⟨hs0, hs1⟩ := acquireStep_inv b t h0 h2 h3 hbt
      refine ih (acquireStep b t).1 hs0 ?_ ?_ ?_ ?_ x hx
      · rw [hcap]; exact hs1
      · rw [hrate]; exact h2
      · rw [hcap]; exact h3
      · rw [hlast]; exact hrest

/-- C6: along every trace of acquire attempts at monotonically
non-decreasing clock times, the bucket's token count stays within
`[0, capacity]` — the capacity cap holds despite refills — and every
completed (successful) acquire consumes exactly one whole token from the
refilled level, which must have been at least 1. -/
theorem C6_token_bucket (C : Nat) (P t0 : ℚ) (ts : List ℚ)
    (hP : 0 < P) (hchain : List.Chain' (· ≤ ·) (t0 :: ts)) :
    (∀ x ∈ bucketStates (TokenBucketLimiter.init C P t0) ts,
        0 ≤ x.tokens ∧ x.tokens ≤ x.capacity)
  ∧ (∀ (b : TokenBucketLimiter) (now : ℚ), (acquireStep b now).2 = true →
      (acquireStep b now).1.tokens = (refillAt b now).tokens - 1
        ∧ 1 ≤ (refillAt b now).tokens) := by
  constructor
  · refine bucketStates_inv ts (TokenBucketLimiter.init C P t0) ?_ ?_ ?_ ?_ ?_
    · show (0 : ℚ) ≤ (C : ℚ); positivity
    · show (C : ℚ) ≤ (C : ℚ); exact le_refl _
    · show (0 : ℚ) ≤ (C : ℚ) / P; positivity
    · show (0 : ℚ) ≤ (C : ℚ); positivity
    · exact hchain
  · intro b now h
    by_cases hc : 1 ≤ (refillAt b now).tokens
    · rw [acquireStep_pos b now hc]
      exact ⟨rfl, hc⟩
    · rw [acquireStep_neg b now hc] at h
      cases h

/-- C6 (witness): capacity 2, period 1, attempts at times 0 and 1. -/
theorem C6_witness :
    (∀ x ∈ bucketStates (TokenBucketLimiter.init 2 1 0) [0, 1],
        0 ≤ x.tokens ∧ x.tokens ≤ x.capacity)
  ∧ (∀ (b : TokenBucketLimiter) (now : ℚ), (acquireStep b now).2 = true →
      (acquireStep b now).1.tokens = (refillAt b now).tokens - 1
        ∧ 1 ≤ (refillAt b now).tokens) :=
  C6_token_bucket 2 1 0 [0, 1] (by norm_num)
    (by simp [List.chain'_cons, List.chain'_singleton])

theorem windowCount_zero (s P : ℚ) :
    ∀ (ts : List ℚ) (b : TokenBucketLimiter) (t0 : ℚ), s + P < t0 →
      List.Chain' (· ≤ ·) (t0 :: ts) → windowCount b s P ts = 0 := by
  intro ts
  induction ts with
  | nil => intro b t0 _ _; rfl
  | cons t ts ih =>
    intro b t0 hgt hchain
    obtain ⟨h01, hrest⟩ := List.chain'_cons.mp hchain
    rw [windowCount]
    have hno : ¬((acquireStep b t).2 = true ∧ s < t ∧ t ≤ s + P) := by
      rintro ⟨-, -, hle⟩
      linarith
    rw [if_neg hno, Nat.zero_add]
    exact ih (acquireStep b t).1 t (by linarith) hrest

theorem windowCount_inside (s P : ℚ) :
    ∀ (ts : List ℚ) (b : TokenBucketLimiter),
      0 ≤ b.tokens → 0 ≤ b.fill_rate → 0 ≤ b.capacity → b.last_time ≤ s + P →
      List.Chain' (· ≤ ·) (b.last_time :: ts) →
      (windowCount b s P ts : ℚ) ≤ b.tokens + b.fill_rate * (s + P - b.last_time) := by
  intro ts
  induction ts with
  | nil =>
    intro b h0 hr _ hL _
    rw [windowCount]
    push_cast
    have hm : 0 ≤ b.fill_rate * (s + P - b.last_time) := mul_nonneg hr (by linarith)
    linarith
  | cons t ts ih =>
    intro b h0 hr hc hL hchain
    obtain ⟨hbt, hrest⟩ := List.chain'_cons.mp hchain
    obtain ⟨hcap, hrate, hlast⟩ := acquireStep_fields b t
    rw [windowCount]
    have hm0 : 0 ≤ b.fill_rate * (s + P - b.last_time) := mul_nonneg hr (by linarith)
    rcases lt_or_le (s + P) t with ht | ht
    · have hc0 : (if (acquireStep b t).2 = true ∧ s < t ∧ t ≤ s + P then 1 else 0) = 0 :=
        if_neg (by rintro ⟨-, -, hle⟩; linarith)
      have hz : windowCount (acquireStep b t).1 s P ts = 0 :=
        windowCount_zero s P ts (acquireStep b t).1 t ht hrest
      rw [hc0, hz]
      push_cast
      linarith
    · have hd : 0 ≤ (t - b.last_time) * b.fill_rate := mul_nonneg (by linarith) hr
      have hR0 : 0 ≤ (refillAt b t).tokens := by
        rw [refillAt_tokens]
        exact le_min hc (by linarith)
      have hRle : (refillAt b t).tokens ≤ b.tokens + (t - b.last_time) * b.fill_rate := by
        rw [refillAt_tokens]
        exact min_le_right _ _
      have hring : (t - b.last_time) * b.fill_rate + b.fill_rate * (s + P - t)
          = b.fill_rate * (s + P - b.last_time) := by ring
      by_cases hok : 1 ≤ (refillAt b t).tokens
      · have htok : (acquireStep b t).1.tokens = (refillAt b t).tokens - 1 := by
          rw [acquireStep_pos b t hok]
        have hite : (if (acquireStep b t).2 = true ∧ s < t ∧ t ≤ s + P
            then (1 : ℚ) else 0) ≤ 1 := by
          split <;> norm_num
        have hih := ih (acquireStep b t).1 (by rw [htok]; linarith)
          (by rw [hrate]; exact hr) (by rw [hcap]; exact hc)
          (by rw [hlast]; exact ht) (by rw [hlast]; exact hrest)
        rw [hrate, hlast, htok] at hih
        push_cast
        linarith
      · have htok : (acquireStep b t).1.tokens = (refillAt b t).tokens := by
          rw [acquireStep_neg b t hok]
        have hc0 : (if (acquireStep b t).2 = true ∧ s < t ∧ t ≤ s + P then 1 else 0) = 0 := by
          refine if_neg ?_
          rintro ⟨h2, -⟩
          rw [acquireStep_neg b t hok] at h2
          simp at h2
        rw [hc0, Nat.zero_add]
        have hih := ih (acquireStep b t).1 (by rw [htok]; exact hR0)
          (by rw [hrate]; exact hr) (by rw [hcap]; exact hc)
          (by rw [hlast]; exact ht) (by rw [hlast]; exact hrest)
        rw [hrate, hlast, htok] at hih
        linarith

theorem windowCount_le_budget (s P : ℚ) (hP : 0 < P) :
    ∀ (ts : List ℚ) (b : TokenBucketLimiter),
      0 ≤ b.tokens → b.tokens ≤ b.capacity → 0 ≤ b.fill_rate → 0 ≤ b.capacity →
      List.Chain' (· ≤ ·) (b.last_time :: ts) →
      (windowCount b s P ts : ℚ) ≤ b.capacity + b.fill_rate * P := by
  intro ts
  induction ts with
  | nil =>
    intro b _ _ hr hc _
    rw [windowCount]
    push_cast
    have hm2 : 0 ≤ b.fill_rate * P := mul_nonneg hr hP.le
    linarith
  | cons t ts ih =>
    intro b h0 h1 hr hc hchain
    obtain ⟨hbt, hrest⟩ := List.chain'_cons.mp hchain
    obtain ⟨hcap, hrate, hlast⟩ := acquireStep_fields b t
    rw [windowCount]
    have hm : 0 ≤ b.fill_rate * P := mul_nonneg hr hP.le
    rcases lt_or_le (s + P) t with ht | ht
    · have hc0 : (if (acquireStep b t).2 = true ∧ s < t ∧ t ≤ s + P then 1 else 0) = 0 :=
        if_neg (by rintro ⟨-, -, hle⟩; linarith)
      have hz : windowCount (acquireStep b t).1 s P ts = 0 :=
        windowCount_zero s P ts (acquireStep b t).1 t ht hrest
      rw [hc0, hz]
      push_cast
      linarith
    · rcases le_or_lt t s with hts | hts
      · have hc0 : (if (acquireStep b t).2 = true ∧ s < t ∧ t ≤ s + P then 1 else 0) = 0 :=
          if_neg (by rintro ⟨-, hlt, -⟩; linarith)
        rw [hc0, Nat.zero_add]
        obtain ⟨hs0, hs1⟩ := acquireStep_inv b t h0 hr hc hbt
        have hih := ih (acquireStep b t).1 hs0 (by rw [hcap]; exact hs1)
          (by rw [hrate]; exact hr) (by rw [hcap]; exact hc)
          (by rw [hlast]; exact hrest)
        rw [hcap, hrate] at hih
        exact hih
      · have hd : 0 ≤ (t - b.last_time) * b.fill_rate := mul_nonneg (by linarith) hr
        have hR0 : 0 ≤ (refillAt b t).tokens := by
          rw [refillAt_tokens]
          exact le_min hc (by linarith)
        have hRcap : (refillAt b t).tokens ≤ b.capacity := by
          rw [refillAt_tokens]
          exact min_le_left _ _
        have hrw : b.fill_rate * (s + P - t) ≤ b.fill_rate * P :=
          mul_le_mul_of_nonneg_left (by linarith) hr
        by_cases hok : 1 ≤ (refillAt b t).tokens
        · have htok : (acquireStep b t).1.tokens = (refillAt b t).tokens - 1 := by
            rw [acquireStep_pos b t hok]
          have hite : (if (acquireStep b t).2 = true ∧ s < t ∧ t ≤ s + P
              then (1 : ℚ) else 0) ≤ 1 := by
            split <;> norm_num
          have hih := windowCount_inside s P ts (acquireStep b t).1
            (by rw [htok]; linarith) (by rw [hrate]; exact hr) (by rw [hcap]; exact hc)
            (by rw [hlast]; exact ht) (by rw [hlast]; exact hrest)
          rw [hrate, hlast, htok] at hih
          push_cast
          linarith
        · have htok : (acquireStep b t).1.tokens = (refillAt b t).tokens := by
            rw [acquireStep_neg b t hok]
          have hc0 : (if (acquireStep b t).2 = true ∧ s < t ∧ t ≤ s + P then 1 else 0) = 0 := by
            refine if_neg ?_
            rintro ⟨h2, -⟩
            rw [acquireStep_neg b t hok] at h2
            simp at h2
          rw [hc0, Nat.zero_add]
          have hih := windowCount_inside s P ts (acquireStep b t).1
            (by rw [htok]; exact hR0) (by rw [hrate]; exact hr) (by rw [hcap]; exact hc)
            (by rw [hlast]; exact ht) (by rw [hlast]; exact hrest)
          rw [hrate, hlast, htok] at hih
          linarith

/-- C7 (amended): for all capacities `C` and periods `P > 0`, along every
trace of acquire attempts at non-decreasing clock times, at most `2 * C`
acquisitions complete within any sliding window of length `P`: the
refill budget contributes at most `C` on top of at most `C` stored tokens.
The claimed bound of `C` is false even after warm-up (see the
counterexample). -/
theorem C7_window_bound (C : Nat) (P t0 s : ℚ) (ts : List ℚ)
    (hP : 0 < P) (hchain : List.Chain' (· ≤ ·) (t0 :: ts)) :
    windowCount (TokenBucketLimiter.init C P t0) s P ts ≤ 2 * C := by
  have h := windowCount_le_budget s P hP ts (TokenBucketLimiter.init C P t0)
    (by show (0 : ℚ) ≤ (C : ℚ); positivity)
    (le_refl _)
    (by show (0 : ℚ) ≤ (C : ℚ) / P; positivity)
    (by show (0 : ℚ) ≤ (C : ℚ); positivity)
    hchain
  have h2 : (windowCount (TokenBucketLimiter.init C P t0) s P ts : ℚ)
      ≤ (C : ℚ) + (C : ℚ) / P * P := h
  have h3 : (C : ℚ) / P * P = (C : ℚ) := div_mul_cancel₀ _ (ne_of_gt hP)
  have h4 : (windowCount (TokenBucketLimiter.init C P t0) s P ts : ℚ)
      ≤ ((2 * C : ℕ) : ℚ) := by
    push_cast
    linarith
  exact_mod_cast h4

/-- C7 (witness): capacity 2, period 1, the five-attempt trace of the
counterexample, window starting at 1/2. -/
theorem C7_witness :
    windowCount (TokenBucketLimiter.init 2 1 0) (1 / 2) 1 [0, 0, 1, 1, 3 / 2] ≤ 2 * 2 :=
  C7_window_bound 2 1 0 (1 / 2) [0, 0, 1, 1, 3 / 2] (by norm_num)
    (by simp [List.chain'_cons, List.chain'_singleton]; norm_num)

/-- C7 (counterexample): with capacity `C = 2` and period `P = 1`, attempts
at times 0, 0, 1, 1, 3/2 all succeed; the bucket is fully drained to 0
tokens by the two acquisitions at time 0 (warm-up, before the window), yet
the sliding window `(1/2, 3/2]` contains 3 > C completed acquisitions —
refuting the claimed bound of `C` per window of length `P`. -/
theorem C7_counterexample :
    windowCount (TokenBucketLimiter.init 2 1 0) (1 / 2) 1 [0, 0, 1, 1, 3 / 2] = 3
  ∧ ¬ (windowCount (TokenBucketLimiter.init 2 1 0) (1 / 2) 1 [0, 0, 1, 1, 3 / 2] ≤ 2)
  ∧ bucketStates (TokenBucketLimiter.init 2 1 0) [0, 0, 1, 1, 3 / 2]
      = [⟨2, 2, 2, 0⟩, ⟨2, 1, 2, 0⟩, ⟨2, 0, 2, 0⟩, ⟨2, 1, 2, 1⟩, ⟨2, 0, 2, 1⟩,
         ⟨2, 0, 2, 3 / 2⟩] := by
  have e0 : TokenBucketLimiter.init 2 1 0 = ⟨2, 2, 2, 0⟩ := by
    unfold TokenBucketLimiter.init
    norm_num
  have s1 : acquireStep ⟨2, 2, 2, 0⟩ 0 = (⟨2, 1, 2, 0⟩, true) := by
    unfold acquireStep refillAt
    norm_num
  have s2 : acquireStep ⟨2, 1, 2, 0⟩ 0 = (⟨2, 0, 2, 0⟩, true) := by
    unfold acquireStep refillAt
    norm_num
  have s3 : acquireStep ⟨2, 0, 2, 0⟩ 1 = (⟨2, 1, 2, 1⟩, true) := by
    unfold acquireStep refillAt
    norm_num
  have s4 : acquireStep ⟨2, 1, 2, 1⟩ 1 = (⟨2, 0, 2, 1⟩, true) := by
    unfold acquireStep refillAt
    norm_num
  have s5 : acquireStep ⟨2, 0, 2, 1⟩ (3 / 2) = (⟨2, 0, 2, 3 / 2⟩, true) := by
    unfold acquireStep refillAt
    norm_num
  refine ⟨?_, ?_, ?_⟩
  · rw [e0]
    rw [windowCount, s1, windowCount, s2, windowCount, s3, windowCount, s4,
      windowCount, s5, windowCount]
    norm_num
  · rw [e0]
    rw [windowCount, s1, windowCount, s2, windowCount, s3, windowCount, s4,
      windowCount, s5, windowCount]
    norm_num
  · rw [e0]
    rw [bucketStates, s1, bucketStates, s2, bucketStates, s3, bucketStates, s4,
      bucketStates, s5, bucketStates]
